import Mathlib

/-!
Verification of the dynamic service-discovery and dispatch engine of cfctl
(`pkg/transport/service.go`), against its natural-language specification.

The Go code is shallowly embedded: Go strings are Lean `String`s (the inputs
involved are ASCII, so Go's byte indexing and Lean's character indexing
coincide); Go's dynamic JSON-ish values (`interface\x7b\x7d` trees produced by
`encoding/json` / `yaml`) are the inductive `JVal`; Go maps
(`map[string]interface\x7b\x7d`) are association lists updated by `mupdate` and
read by `jlookup`; fallible Go functions returning `(T, error)` become
`Except String T`; functions from Go's `strings` package are re-implemented
by structural recursion on character lists (`goStringsSplit`, `goStringsJoin`,
`goStringsContains`, ...) so that every definition evaluates inside the
kernel.
-/

/-- Model of a Go dynamic value as decoded by `encoding/json` or `yaml` into
`interface\x7b\x7d`: strings, numbers, booleans, null, nested maps and arrays.
Numbers are modelled as integers (Go decodes JSON numbers to `float64`; all
numeric values exercised by the spec and the theorems are integral, where
`float64` comparison and `Int` comparison agree). -/
inductive JVal where
  | str (s : String)
  | num (n : Int)
  | boolean (b : Bool)
  | nullv
  /-- An aggregate (nested map or array) value, carrying an identifying tag.
  Every piece of code the claims are about moves aggregates around opaquely
  (the sort comparator sends them to its `default: return false` arm, the
  parameter merge copies them wholesale), so their internal shape is not
  modelled. -/
  | aggregate (tag : String)
deriving DecidableEq, Repr, Inhabited

/-- A decoded JSON object / Go `map[string]interface\x7b\x7d`: an association
list. Lookup of a key (first binding wins; well-formed Go maps have no
duplicate keys). -/
def jlookup : List (String × JVal) → String → Option JVal
  | [], _ => none
  | (k, v) :: rest, key => if k = key then some v else jlookup rest key

/-- Go map assignment `m[k] = v`: replaces any existing binding of `k`. -/
def mupdate (m : List (String × JVal)) (k : String) (v : JVal) :
    List (String × JVal) :=
  (k, v) :: m.filter (fun p => !(p.1 = k : Bool))

/-! ### Character-list re-implementations of Go's `strings` functions -/

/-- Index (in characters) of the first occurrence of `pat` in `l`, if any.
This is Go's `strings.Index` (which returns -1 when absent, modelled by
`none`), specialised to the ASCII inputs used by the code. -/
def firstIndexOf? (pat : List Char) : List Char → Option Nat
  | [] => if pat = [] then some 0 else none
  | c :: rest =>
    if pat.isPrefixOf (c :: rest) then some 0
    else (firstIndexOf? pat rest).map (· + 1)

/-- Go `strings.Contains`. -/
def goStringsContains (s sub : String) : Bool :=
  (firstIndexOf? sub.toList s.toList).isSome

/-- Go `strings.HasSuffix`. -/
def goStringsHasSuffix (s suffix : String) : Bool :=
  suffix.toList.isSuffixOf s.toList

/-- Go `strings.HasPrefix` (spelled `StartsWith` to honour lexical
conventions of this development). -/
def goStringsStartsWith (s pre : String) : Bool :=
  pre.toList.isPrefixOf s.toList

/-- Fuel-driven worker for `goStringsSplit`; fuel `l.length + 1` always
suffices because each recursive call strictly shrinks `l` (the separator is
nonempty). -/
def goSplitF (fuel : Nat) (sep : List Char) (l : List Char) : List (List Char) :=
  match fuel with
  | 0 => [l]
  | fuel + 1 =>
    match l with
    | [] => [[]]
    | c :: rest =>
      if sep.isPrefixOf (c :: rest) then
        [] :: goSplitF fuel sep ((c :: rest).drop sep.length)
      else
        match goSplitF fuel sep rest with
        | [] => [[c]]
        | h :: t => (c :: h) :: t

/-- Go `strings.Split(s, sep)` for a nonempty separator (the only way the
code calls it): the substrings between consecutive occurrences of `sep`. -/
def goStringsSplit (s sep : String) : List String :=
  if sep.toList = [] then [s]
  else (goSplitF (s.toList.length + 1) sep.toList s.toList).map (fun l => ⟨l⟩)

/-- Go `strings.Join`. -/
def goStringsJoin (sep : String) : List String → String
  | [] => ""
  | [x] => x
  | x :: xs => x ++ sep ++ goStringsJoin sep xs

/-- Go `strings.TrimPrefix(s, p)` (strip `p` when it is a prefix of `s`,
else return `s` unchanged). -/
def goStringsTrimHead (s p : String) : String :=
  if goStringsStartsWith s p then ⟨s.toList.drop p.toList.length⟩ else s

/-- Go `strings.SplitN(param, "=", 2)`, returning the two pieces when `param`
contains a `=` (split at the first one) and `none` otherwise. Worker on
characters. -/
def splitEqChars : List Char → Option (List Char × List Char)
  | [] => none
  | c :: rest =>
    if c = '=' then some ([], rest)
    else (splitEqChars rest).map (fun p => (c :: p.1, p.2))

/-- Go `strings.SplitN(param, "=", 2)` with the `len(parts) == 2` check of
`parseParameters` folded in: `some (key, value)` when the token contains a
`=`, `none` for a malformed token. -/
def splitEq (s : String) : Option (String × String) :=
  (splitEqChars s.toList).map (fun p => (⟨p.1⟩, ⟨p.2⟩))

/-! ### Streaming-response normalization (`fetchJSONResponse`, server-streaming arm)

The streaming arm collects each received message's JSON serialization into
`allResponses []string`; after end-of-stream it returns `allResponses[0]`
when exactly one message arrived, and otherwise wraps the comma-joined list
in a `\x7b"results": [...]\x7d` container. -/

/-- The value returned by the server-streaming arm of `fetchJSONResponse`
once `allResponses` has been collected (messages in receive order). -/
def streamCollectResult (allResponses : List String) : String :=
  match allResponses with
  | [single] => single
  | _ =>
    "\x7b\"results\": [" ++ goStringsJoin "," allResponses ++ "]\x7d"

/-! ### Endpoint resolution (secure direct address with identity service)

`FetchService` (lines 218-228) and `fetchJSONResponse` (lines 545-555) both
resolve the target host from the identity endpoint by trimming the
`grpc+ssl://` scheme, splitting the remainder on `.`, requiring at least 4
labels, replacing the first label with `format.ConvertServiceName(serviceName)`
and re-joining. `format.ConvertServiceName` lives in another package
(`pkg/format`), outside the sources under verification; it is taken as an
abstract parameter `convert`. -/

/-- Host resolution from a secure identity endpoint (`hasIdentityService`
branch of both call sites). -/
def resolveServiceHost (convert : String → String) (serviceName : String)
    (identityEndpoint : String) : Except String String :=
  let trimmedEndpoint := goStringsTrimHead identityEndpoint "grpc+ssl://"
  let parts := goStringsSplit trimmedEndpoint "."
  if parts.length < 4 then
    .error ("invalid endpoint format: " ++ trimmedEndpoint)
  else
    match parts with
    | [] => .error ("invalid endpoint format: " ++ trimmedEndpoint)
    | _ :: rest => .ok (goStringsJoin "." (convert serviceName :: rest))

/-! ### Service discovery (`discoverService`) -/

/-- First matching policy of `discoverService`: the service name contains the
plugin-namespace marker and ends with the resource name. -/
def pluginMatch (resourceName : String) (service : String) : Bool :=
  goStringsContains service ".plugin." && goStringsHasSuffix service resourceName

/-- Second matching policy of `discoverService`: the service name contains
the versioned-API namespace `spaceone.api.<serviceName>` and ends with the
resource name. -/
def apiMatch (serviceName resourceName : String) (service : String) : Bool :=
  goStringsContains service ("spaceone.api." ++ serviceName) &&
    goStringsHasSuffix service resourceName

/-- The function `discoverService`, with the reflection client's `ListServices()` answer
passed in as `services` (the two Go `for` loops with early `return` are the
two `List.find?` scans). -/
def discoverService (services : List String) (serviceName resourceName : String) :
    Except String String :=
  match services.find? (pluginMatch resourceName) with
  | some service => .ok service
  | none =>
    match services.find? (apiMatch serviceName resourceName) with
    | some service => .ok service
    | none => .error ("service not found for " ++ serviceName ++ "." ++ resourceName)

/-! ### Required-parameter error extraction (`extractParameterName` and its
caller in `FetchService`, lines 301-312) -/

/-- The function `extractParameterName`: when the message contains the structured fragment
opener, take the text between the first occurrence of `"key = "` and the
next `")"`. (In Go, `strings.Index` cannot return -1 for `"key = "` once the
`Contains` test passed, since the fragment opener contains it; the `none`
arm is unreachable and yields the zero value `""`.) -/
def extractParameterName (errMsg : String) : String :=
  let l := errMsg.toList
  if goStringsContains errMsg "Required parameter. (key = " then
    match firstIndexOf? "key = ".toList l with
    | none => ""
    | some idx =>
      let start := idx + 6
      match firstIndexOf? [')'] (l.drop start) with
      | none => ""
      | some stop => ⟨(l.drop start).take stop⟩
  else ""

/-- The error-classification step of `FetchService` after `fetchJSONResponse`
fails: a remote error mentioning `ERROR_REQUIRED_PARAMETER` whose parameter
name can be extracted is rewritten to a missing-required-parameter error;
every other error is propagated unchanged. -/
def classifyFetchError (errMsg : String) : String :=
  if goStringsContains errMsg "ERROR_REQUIRED_PARAMETER" then
    let paramName := extractParameterName errMsg
    if paramName ≠ "" then "missing required parameter: " ++ paramName
    else errMsg
  else errMsg

/-! ### The empty-token early return of `FetchService` (lines 93-179) -/

/-- Outcome of the authentication-token gate at the top of `FetchService`:
`some (result, error)` models an early `return result, error`; `none` means
the gate was passed and execution continues to connection establishment.
Each of the guidance branches (local / `-app` / `-user` / other) only prints
instructional text and falls through to `return nil, nil`. -/
def fetchServiceTokenGate (environment : String) (token : String) :
    Option (Option (List (String × JVal)) × Option String) :=
  if token = "" then
    if environment = "local" then some (none, none)
    else if goStringsHasSuffix environment "-app" then some (none, none)
    else if goStringsHasSuffix environment "-user" then some (none, none)
    else some (none, none)
  else none

/-! ### Decimal formatting and scalar JSON parsing

`fetchJSONResponse` renders the paging values with `fmt.Sprintf("%d", ...)`
and `parseParameters` feeds each `key=value` value to `json.Unmarshal`.
Both are re-implemented here: decimal printing by repeated division, and
scalar parsing for the literals the theorems exercise. -/

/-- The decimal digit character for `d ≤ 9` (`digitChar 10`-and-up is
unreachable in `natDigitsRevF`, which only passes remainders mod 10). -/
def decDigit (d : Nat) : Char :=
  match d with
  | 0 => '0' | 1 => '1' | 2 => '2' | 3 => '3' | 4 => '4'
  | 5 => '5' | 6 => '6' | 7 => '7' | 8 => '8' | _ => '9'

/-- Numeric value of a decimal digit character. -/
def decDigitVal (c : Char) : Nat := c.toNat - 48

/-- Is `c` one of `'0'..'9'`? -/
def isDecDigit (c : Char) : Bool := decide (48 ≤ c.toNat) && decide (c.toNat ≤ 57)

/-- Decimal digits of `n`, least-significant first. Fuel-driven; `n + 1`
units always suffice since the argument at least halves each step. -/
def natDigitsRevF (fuel n : Nat) : List Char :=
  match fuel with
  | 0 => []
  | fuel + 1 =>
    if n < 10 then [decDigit n] else decDigit (n % 10) :: natDigitsRevF fuel (n / 10)

/-- Go `fmt.Sprintf("%d", n)` for a natural number. -/
def goItoaNat (n : Nat) : String := ⟨(natDigitsRevF (n + 1) n).reverse⟩

/-- Go `fmt.Sprintf("%d", i)` for a Go `int`. -/
def goItoa (i : Int) : String :=
  if i < 0 then "-" ++ goItoaNat (-i).toNat else goItoaNat i.toNat

/-- Value of a list of decimal digit characters, most-significant first. -/
def parseNatChars (l : List Char) : Nat :=
  l.foldl (fun a c => a * 10 + decDigitVal c) 0

/-- Models `json.Unmarshal(value, &v)` on the scalar literals the theorems
feed it: the JSON literals `true`, `false`, `null` and (unsigned, no
leading zero) decimal integer literals succeed; a bare word such as `test`
is not valid JSON and fails, so the caller keeps the plain string. (Floats,
negative numbers, quoted strings and composite literals are valid JSON too
but are never passed to this model by any theorem below.) -/
def scalarJSONValue (s : String) : Option JVal :=
  if s = "true" then some (.boolean true)
  else if s = "false" then some (.boolean false)
  else if s = "null" then some .nullv
  else if (!(s.toList = [] : Bool)) && s.toList.all isDecDigit then
    some (.num (parseNatChars s.toList))
  else none

/-! ### Parameter merging (`parseParameters`, lines 744-799)

The file-sourced document and the inline structured blob arrive decoded:
`fileMap` stands for the YAML document of `options.FileParameter` (the empty
list when no file flag was given — ranging over an empty document and
skipping the branch coincide), and `jsonBlob` is `some m` when
`options.JSONParameter` is nonempty and unmarshals to the object `m`
(`json.Unmarshal` into the non-nil map `parsed` keeps the entries already
present and overwrites same-named top-level keys, which is exactly an
overlay). -/

/-- The value stored for a `key=value` token: the value parsed as JSON when
possible, the plain string otherwise. -/
def tokenValue (value : String) : JVal := (scalarJSONValue value).getD (.str value)

/-- Overlay `overlay`'s bindings onto `base`, one Go map assignment per
binding. -/
def overlayMap (base overlay : List (String × JVal)) : List (String × JVal) :=
  overlay.foldl (fun acc p => mupdate acc p.1 p.2) base

/-- The `key=value` loop of `parseParameters`: each token is split at its
first `=`; a token with no `=` aborts the whole build. -/
def applyTokens (acc : List (String × JVal)) :
    List String → Except String (List (String × JVal))
  | [] => .ok acc
  | t :: rest =>
    match splitEq t with
    | none => .error "invalid parameter format. Use key=value"
    | some (k, v) => applyTokens (mupdate acc k (tokenValue v)) rest

/-- The map `parsed` holds when the token loop starts: file document keys
assigned first, inline blob overlaid second. -/
def paramBase (fileMap : List (String × JVal))
    (jsonBlob : Option (List (String × JVal))) : List (String × JVal) :=
  let parsed := overlayMap [] fileMap
  match jsonBlob with
  | none => parsed
  | some m => overlayMap parsed m

/-- The function `parseParameters`: file document first, inline blob second, `key=value`
tokens last. -/
def parseParameters (fileMap : List (String × JVal))
    (jsonBlob : Option (List (String × JVal))) (params : List String) :
    Except String (List (String × JVal)) :=
  applyTokens (paramBase fileMap jsonBlob) params

/-- The paging augmentation at the top of `fetchJSONResponse` (lines
490-494): for a `list` call with an explicit page request the two synthetic
tokens are appended to `options.Parameters` before `parseParameters` runs. -/
def paramsWithPaging (verb : String) (page pageSize : Int)
    (parameters : List String) : List String :=
  if verb = "list" && page > 0 then
    parameters ++ ["page=" ++ goItoa page, "page_size=" ++ goItoa pageSize]
  else parameters

/-! ### FetchOptions and the alias-expansion block (lines 266-298) -/

/-- The flag bundle `FetchOptions` (one field per Go struct field). -/
structure FetchOptions where
  Parameters : List String
  JSONParameter : String
  FileParameter : String
  APIVersion : String
  OutputFormat : String
  OutputFormatExplicit : Bool
  CopyToClipboard : Bool
  SortBy : String
  MinimalColumns : Bool
  Columns : String
  Rows : Int
  Page : Int
  PageSize : Int
  NoPaging : Bool
deriving DecidableEq, Repr

/-- Is `c` Go whitespace (the cases `unicode.IsSpace` recognises in the
ASCII range, which is all the alias strings use)? -/
def goSpaceChar (c : Char) : Bool := c = ' ' || c = '\t' || c = '\n' || c = '\r'

/-- Splitting worker for `goStringsFields`. -/
def goFieldsChars : List Char → List (List Char)
  | [] => [[]]
  | c :: rest =>
    if goSpaceChar c then [] :: goFieldsChars rest
    else
      match goFieldsChars rest with
      | [] => [[c]]
      | h :: t => (c :: h) :: t

/-- Go `strings.Fields`: the whitespace-separated words of `s`. -/
def goStringsFields (s : String) : List String :=
  ((goFieldsChars s.toList).filter (fun l => !(l = [] : Bool))).map (fun l => ⟨l⟩)

/-- The alias-expansion block of `FetchService`. `aliasCmd` is the alias
table's entry for `(serviceName, verb)` when one exists. The result is
`(verb, resourceName, callerOptions, activeOptions)`: `callerOptions` is
what the caller's `*FetchOptions` pointee holds after the block (the block
assigns `options.OutputFormat = "table"` through the pointer when the alias
resolves to `list` and no explicit format was given), and `activeOptions`
is the options value the rest of the invocation uses (the freshly
constructed `newOptions` in the alias-to-`list` case, in which the composite
literal leaves `SortBy`, `Columns`, `Rows`, `Page`, `NoPaging` at their zero
values and pins `MinimalColumns` to `false` and `PageSize` to `15`). -/
def aliasListAdjust (aliasCmd : Option String) (verb resourceName : String)
    (opts : FetchOptions) : String × String × FetchOptions × FetchOptions :=
  match aliasCmd with
  | none => (verb, resourceName, opts, opts)
  | some cmd =>
    let parts := goStringsFields cmd
    if 2 ≤ parts.length then
      let verb2 := parts.getD 0 ""
      let resource2 := parts.getD 1 ""
      if verb2 = "list" then
        let caller :=
          if !opts.OutputFormatExplicit then { opts with OutputFormat := "table" }
          else opts
        let newOptions : FetchOptions := {
          Parameters := caller.Parameters
          JSONParameter := caller.JSONParameter
          FileParameter := caller.FileParameter
          APIVersion := caller.APIVersion
          OutputFormat := caller.OutputFormat
          OutputFormatExplicit := caller.OutputFormatExplicit
          CopyToClipboard := caller.CopyToClipboard
          SortBy := ""
          MinimalColumns := false
          Columns := ""
          Rows := 0
          Page := 0
          PageSize := 15
          NoPaging := false }
        (verb2, resource2, caller, newOptions)
      else (verb2, resource2, opts, opts)
    else (verb, resourceName, opts, opts)

/-! ### Host-port resolution phase of `FetchService` (lines 182-229)

The two collaborator calls are passed in as their results: `apiRes` for
`configs.GetAPIEndpoint` and `identityRes` for `configs.GetIdentityEndpoint`
(yielding the identity endpoint and the `hasIdentityService` flag). On
either collaborator error the Go code prints and calls `os.Exit(1)`. -/

/-- How the phase ends: a host-port to dial, an error returned to the
caller, or process termination. -/
inductive CoreOutcome where
  | okHost (hostPort : String)
  | errReturn (msg : String)
  | procExit (code : Nat)
deriving DecidableEq, Repr

/-- Go `extractPortFromParts` (lines 404-418). -/
def extractPortFromParts (parts : List String) : String :=
  match parts.getLast? with
  | none => ":443"
  | some lastPart =>
    if goStringsContains lastPart ":" then
      let portParts := goStringsSplit lastPart ":"
      if portParts.length = 2 then ":" ++ portParts.getD 1 "" else ":443"
    else ":443"

/-- The endpoint-to-host-port resolution phase of `FetchService` (lines
182-229), faithful to each branch including the two `os.Exit(1)` calls. -/
def resolveHostPortPhase (endpoint : String) (apiRes : Except String String)
    (identityRes : Except String (String × Bool)) (convert : String → String)
    (serviceName : String) : CoreOutcome :=
  if goStringsStartsWith endpoint "grpc://" then
    .okHost (goStringsTrimHead endpoint "grpc://")
  else
    match apiRes with
    | .error _ => .procExit 1
    | .ok apiEndpoint =>
      match identityRes with
      | .error _ => .procExit 1
      | .ok (identityEndpoint, hasIdentityService) =>
        if !hasIdentityService then
          let urlParts := goStringsSplit apiEndpoint "//"
          if !(urlParts.length = 2 : Bool) then
            .errReturn ("invalid API endpoint format: " ++ apiEndpoint)
          else
            let domainParts := goStringsSplit (urlParts.getD 1 "") "."
            if 0 < domainParts.length then
              let port := extractPortFromParts domainParts
              let lastLabel := (domainParts.getLast?).getD ""
              let domainParts2 :=
                if goStringsContains lastLabel ":" then
                  domainParts.set (domainParts.length - 1)
                    ((goStringsSplit lastLabel ":").getD 0 "")
                else domainParts
              let domainParts3 := domainParts2.set 0 (convert serviceName)
              .okHost (goStringsJoin "." domainParts3 ++ port)
            else
              .okHost ""
        else
          match resolveServiceHost convert serviceName identityEndpoint with
          | .ok hostPort => .okHost hostPort
          | .error e => .errReturn e

/-! ### The post-processing sort (`FetchService`, lines 322-355)

The code sorts `respMap["results"]` with `sort.Slice` and a field-directed
comparator. `sort.Slice` is Go's *unstable* sort; since Go 1.19 it runs the
pattern-defeating quicksort of `sort/zsortfunc.go` seeded with
`limit = bits.Len(uint(n))`. That algorithm is ported here function by
function (`insertionSort_func`, `heapSort_func`, `siftDown_func`,
`partialInsertionSort_func`, `breakPatterns_func`, `choosePivot_func`,
`order2_func`, `median_func`, `medianAdjacent_func`, `reverseRange_func`,
`partition_func`, `partitionEqual_func`, `pdqsort_func`), on a `List α`
with explicit index reads and swaps standing for the slice. Loops are
fuel-driven with generous fuel (each Go loop's trip count is bounded by the
range it walks, which every call bounds by `b`). -/

/-- The comparator of the `options.SortBy` sort: items missing the field
compare as in lines 332-339, present values by dynamic type as in lines
341-351. A mixed-type comparison panics in Go (failed type assertion) and
is exercised by no theorem here; values of aggregate or null type fall to
the Go `default: return false` arm. -/
def sortLess (sortBy : String) (iMap jMap : List (String × JVal)) : Bool :=
  match jlookup iMap sortBy, jlookup jMap sortBy with
  | none, none => false
  | none, some _ => false
  | some _, none => true
  | some iVal, some jVal =>
    match iVal, jVal with
    | .str v, .str w => decide (v < w)
    | .num v, .num w => decide (v < w)
    | .boolean v, .boolean w => v && !w
    | _, _ => false

/-- Read the slice at index `i` (all accesses are in bounds in every run
modelled here; Go would panic out of bounds). -/
def lget {α : Type} [Inhabited α] (l : List α) (i : Nat) : α :=
  (l.get? i).getD default

/-- Go `data.Swap(i, j)`. -/
def lswap {α : Type} [Inhabited α] (l : List α) (i j : Nat) : List α :=
  let x := lget l i
  let y := lget l j
  (l.set i y).set j x

section PdqsortPort

variable {α : Type} [Inhabited α] (less : α → α → Bool)

/-- Inner loop of `insertionSort_func`:
`for j := i; j > a && data.Less(j, j-1); j-- \x7b data.Swap(j, j-1) \x7d`. -/
def insertionSortInner (arr : List α) (a : Nat) : Nat → List α
  | 0 => arr
  | jp + 1 =>
    if a ≤ jp && less (lget arr (jp + 1)) (lget arr jp) then
      insertionSortInner (lswap arr (jp + 1) jp) a jp
    else arr

/-- Outer loop of `insertionSort_func` (`for i := a + 1; i < b; i++`). -/
def insertionSortOuterF (arr : List α) (a b : Nat) : Nat → Nat → List α
  | _, 0 => arr
  | i, fuel + 1 =>
    if i < b then
      insertionSortOuterF (insertionSortInner less arr a i) a b (i + 1) fuel
    else arr

/-- Go `insertionSort_func(data, a, b)`. -/
def insertionSortGo (arr : List α) (a b : Nat) : List α :=
  insertionSortOuterF less arr a b (a + 1) (b + 1)

/-- Go `siftDown_func(data, lo, hi, first)` (the `root` walk). -/
def siftDownF (arr : List α) (hi first : Nat) : Nat → Nat → List α
  | _, 0 => arr
  | root, fuel + 1 =>
    let child0 := 2 * root + 1
    if hi ≤ child0 then arr
    else
      let child :=
        if child0 + 1 < hi && less (lget arr (first + child0)) (lget arr (first + child0 + 1))
        then child0 + 1 else child0
      if !(less (lget arr (first + root)) (lget arr (first + child))) then arr
      else siftDownF (lswap arr (first + root) (first + child)) hi first child fuel

/-- Go `siftDown_func` with adequate fuel (`root` strictly increases below `hi`). -/
def siftDownGo (arr : List α) (lo hi first : Nat) : List α :=
  siftDownF less arr hi first lo (hi + 1)

/-- Heap-building loop of `heapSort_func`
(`for i := (hi-1)/2; i >= 0; i--`), counting `i` down to zero. -/
def heapBuildLoop (hi first : Nat) : List α → Nat → List α
  | arr, 0 => siftDownGo less arr 0 hi first
  | arr, ip + 1 => heapBuildLoop hi first (siftDownGo less arr (ip + 1) hi first) ip

/-- Pop loop of `heapSort_func` (`for i := hi-1; i >= 0; i--` with
`data.Swap(first, first+i); siftDown(data, lo, i, first)`). -/
def heapPopLoop (first : Nat) : List α → Nat → List α
  | arr, 0 => siftDownGo less (lswap arr first first) 0 0 first
  | arr, ip + 1 =>
    heapPopLoop first (siftDownGo less (lswap arr first (first + ip + 1)) 0 (ip + 1) first) ip

/-- Go `heapSort_func(data, a, b)` (only reached with `b - a > 12`, hence the
positive-length guard is definitionally irrelevant in every modelled run). -/
def heapSortGo (arr : List α) (a b : Nat) : List α :=
  let hi := b - a
  if hi = 0 then arr
  else heapPopLoop less a (heapBuildLoop less hi a arr ((hi - 1) / 2)) (hi - 1)

/-- Go `reverseRange_func(data, a, b)`. -/
def reverseRangeF : List α → Nat → Nat → Nat → List α
  | arr, _, _, 0 => arr
  | arr, i, j, fuel + 1 =>
    if i < j then reverseRangeF (lswap arr i j) (i + 1) (j - 1) fuel else arr

/-- Go `reverseRange_func` entry point. -/
def reverseRangeGo (arr : List α) (a b : Nat) : List α :=
  reverseRangeF arr a (b - 1) (b + 1)

/-- Go `order2_func(data, a, b, swaps)`: order two indices by their elements,
counting an index swap. -/
def order2Go (arr : List α) (a b swaps : Nat) : Nat × Nat × Nat :=
  if less (lget arr b) (lget arr a) then (b, a, swaps + 1) else (a, b, swaps)

/-- Go `median_func(data, a, b, c, swaps)`: index of the median element. -/
def medianGo (arr : List α) (a b c swaps : Nat) : Nat × Nat :=
  let (a1, b1, s1) := order2Go less arr a b swaps
  let (b2, _, s2) := order2Go less arr b1 c s1
  let (_, b3, s3) := order2Go less arr a1 b2 s2
  (b3, s3)

/-- Go `medianAdjacent_func(data, a, swaps)`. -/
def medianAdjacentGo (arr : List α) (a swaps : Nat) : Nat × Nat :=
  medianGo less arr (a - 1) a (a + 1) swaps

/-- The hint returned by `choosePivot_func`. -/
inductive SortedHint where
  | increasing
  | decreasing
  | unknown
deriving DecidableEq, Repr

/-- Go `choosePivot_func(data, a, b)`: candidate indices at `l/4`, `2l/4`,
`3l/4`; ninther refinement from length 50; hint from the swap count
(`maxSwaps = 12` → decreasing, `0` → increasing, else unknown). -/
def choosePivotGo (arr : List α) (a b : Nat) : Nat × SortedHint :=
  let l := b - a
  let i0 := a + l / 4 * 1
  let j0 := a + l / 4 * 2
  let k0 := a + l / 4 * 3
  if 8 ≤ l then
    let (i1, j1, k1, s1) :=
      if 50 ≤ l then
        let (i1, si) := medianAdjacentGo less arr i0 0
        let (j1, sj) := medianAdjacentGo less arr j0 si
        let (k1, sk) := medianAdjacentGo less arr k0 sj
        (i1, j1, k1, sk)
      else (i0, j0, k0, 0)
    let (j2, s2) := medianGo less arr i1 j1 k1 s1
    if s2 = 12 then (b - 1, SortedHint.decreasing)
    else if s2 = 0 then (j2, SortedHint.increasing)
    else (j2, SortedHint.unknown)
  else (j0, SortedHint.increasing)

/-- Ascending scan of `partialInsertionSort_func`
(`for i < b && !data.Less(i, i-1) \x7b i++ \x7d`). -/
def scanAscF (arr : List α) (b : Nat) : Nat → Nat → Nat
  | i, 0 => i
  | i, fuel + 1 =>
    if i < b && !(less (lget arr i) (lget arr (i - 1))) then
      scanAscF arr b (i + 1) fuel
    else i

/-- Left shift of `partialInsertionSort_func`
(`for j := i-1; j >= 1; j--` with break on `!data.Less(j, j-1)`). -/
def shiftLeftGo (arr : List α) : Nat → List α :=
  fun j =>
    match j with
    | 0 => arr
    | jp + 1 =>
      if less (lget arr (jp + 1)) (lget arr jp) then
        shiftLeftGo (lswap arr (jp + 1) jp) jp
      else arr

/-- Right shift of `partialInsertionSort_func`
(`for j := i+1; j < b; j++` with break on `!data.Less(j, j-1)`). -/
def shiftRightF (b : Nat) : List α → Nat → Nat → List α
  | arr, _, 0 => arr
  | arr, j, fuel + 1 =>
    if j < b then
      if less (lget arr j) (lget arr (j - 1)) then
        shiftRightF b (lswap arr j (j - 1)) (j + 1) fuel
      else arr
    else arr

/-- Go `partialInsertionSort_func(data, a, b)` — at most `maxSteps = 5`
adjacent out-of-order pairs are repaired, no shifting below length
`shortestShifting = 50`; returns the data and whether it ended sorted. -/
def partlyInsertionSortF (a b : Nat) : List α → Nat → Nat → List α × Bool
  | arr, _, 0 => (arr, false)
  | arr, i, steps + 1 =>
    let i2 := scanAscF less arr b i (b + 1)
    if i2 = b then (arr, true)
    else if b - a < 50 then (arr, false)
    else
      let arr := lswap arr i2 (i2 - 1)
      let arr := if 2 ≤ i2 - a then shiftLeftGo less arr (i2 - 1) else arr
      let arr := if 2 ≤ b - i2 then shiftRightF less b arr (i2 + 1) (b + 1) else arr
      partlyInsertionSortF a b arr i2 steps

/-- Go `partialInsertionSort_func` entry point. -/
def partlyInsertionSortGo (arr : List α) (a b : Nat) : List α × Bool :=
  partlyInsertionSortF less a b arr (a + 1) 5

/-- One step of the `xorshift` generator of `sort` (`uint64` state:
`r ^= r << 13; r ^= r >> 7; r ^= r << 17`). -/
def xorshiftNext (r : Nat) : Nat :=
  let r1 := (r ^^^ (r <<< 13)) % 2 ^ 64
  let r2 := (r1 ^^^ (r1 >>> 7)) % 2 ^ 64
  (r2 ^^^ (r2 <<< 17)) % 2 ^ 64

/-- Go `bits.Len` (fuel-driven binary length). -/
def goBitsLenF : Nat → Nat → Nat
  | _, 0 => 0
  | n, fuel + 1 => if n = 0 then 0 else goBitsLenF (n / 2) fuel + 1

/-- Go `bits.Len(uint(n))`. -/
def goBitsLen (n : Nat) : Nat := goBitsLenF n (n + 1)

/-- Go `nextPowerOfTwo` from `sort`. -/
def nextPowerOfTwo (length : Nat) : Nat := 1 <<< goBitsLen length

/-- Go `breakPatterns_func(data, a, b)`: three pseudo-random swaps around the
midpoint, driven by `xorshift(length)`. -/
def breakPatternsGo (arr : List α) (a b : Nat) : List α :=
  let length := b - a
  if 8 ≤ length then
    let modulus := nextPowerOfTwo length
    let idx := a + length / 4 * 2 - 1
    let r1 := xorshiftNext length
    let o1 := r1 &&& (modulus - 1)
    let o1 := if length ≤ o1 then o1 - length else o1
    let arr := lswap arr (idx - 1) (a + o1)
    let r2 := xorshiftNext r1
    let o2 := r2 &&& (modulus - 1)
    let o2 := if length ≤ o2 then o2 - length else o2
    let arr := lswap arr idx (a + o2)
    let r3 := xorshiftNext r2
    let o3 := r3 &&& (modulus - 1)
    let o3 := if length ≤ o3 then o3 - length else o3
    lswap arr (idx + 1) (a + o3)
  else arr

/-- Forward scan of `partition_func` / 2nd loop
(`for i <= j && data.Less(i, a) \x7b i++ \x7d`). -/
def scanLessF (arr : List α) (a : Nat) : Nat → Nat → Nat → Nat
  | i, _, 0 => i
  | i, j, fuel + 1 =>
    if i ≤ j && less (lget arr i) (lget arr a) then scanLessF arr a (i + 1) j fuel
    else i

/-- Backward scan of `partition_func`
(`for i <= j && !data.Less(j, a) \x7b j-- \x7d`). -/
def scanGeqF (arr : List α) (a : Nat) : Nat → Nat → Nat → Nat
  | j, _, 0 => j
  | j, i, fuel + 1 =>
    if i ≤ j && !(less (lget arr j) (lget arr a)) then scanGeqF arr a (j - 1) i fuel
    else j

/-- Main exchange loop of `partition_func`. -/
def partitionLoopF (a b : Nat) : List α → Nat → Nat → Nat → List α × Nat
  | arr, _, j, 0 => (arr, j)
  | arr, i, j, fuel + 1 =>
    let i2 := scanLessF less arr a i j (b + 2)
    let j2 := scanGeqF less arr a j i2 (b + 2)
    if j2 < i2 then (arr, j2)
    else partitionLoopF a b (lswap arr i2 j2) (i2 + 1) (j2 - 1) fuel

/-- Go `partition_func(data, a, b, pivot)`: returns the data, the new pivot
position and whether the range was already partitioned. -/
def partitionGo (arr : List α) (a b pivot : Nat) : List α × Nat × Bool :=
  let arr := lswap arr a pivot
  let i := a + 1
  let j := b - 1
  let i := scanLessF less arr a i j (b + 2)
  let j := scanGeqF less arr a j i (b + 2)
  if j < i then (lswap arr j a, j, true)
  else
    let arr := lswap arr i j
    let (arr, j2) := partitionLoopF less a b arr (i + 1) (j - 1) (b + 2)
    (lswap arr j2 a, j2, false)

/-- Forward scan of `partitionEqual_func`
(`for i <= j && !data.Less(a, i) \x7b i++ \x7d`). -/
def scanEqF (arr : List α) (a : Nat) : Nat → Nat → Nat → Nat
  | i, _, 0 => i
  | i, j, fuel + 1 =>
    if i ≤ j && !(less (lget arr a) (lget arr i)) then scanEqF arr a (i + 1) j fuel
    else i

/-- Backward scan of `partitionEqual_func`
(`for i <= j && data.Less(a, j) \x7b j-- \x7d`). -/
def scanGtF (arr : List α) (a : Nat) : Nat → Nat → Nat → Nat
  | j, _, 0 => j
  | j, i, fuel + 1 =>
    if i ≤ j && less (lget arr a) (lget arr j) then scanGtF arr a (j - 1) i fuel
    else j

/-- Exchange loop of `partitionEqual_func`; returns the data and the final
`i`. -/
def partitionEqualLoopF (a b : Nat) : List α → Nat → Nat → Nat → List α × Nat
  | arr, i, _, 0 => (arr, i)
  | arr, i, j, fuel + 1 =>
    let i2 := scanEqF less arr a i j (b + 2)
    let j2 := scanGtF less arr a j i2 (b + 2)
    if j2 < i2 then (arr, i2)
    else partitionEqualLoopF a b (lswap arr i2 j2) (i2 + 1) (j2 - 1) fuel

/-- Go `partitionEqual_func(data, a, b, pivot)`. -/
def partitionEqualGo (arr : List α) (a b pivot : Nat) : List α × Nat :=
  let arr := lswap arr a pivot
  partitionEqualLoopF less a b arr (a + 1) (b - 1) (b + 2)

/-- Go `pdqsort_func(data, a, b, limit)` with the loop's carried flags
`wasBalanced`, `wasPartitioned` made explicit (both start `true`; the
`continue` paths become tail-recursive calls, the genuine recursive calls
restart both flags at `true`). -/
def pdqsortF : Nat → List α → Nat → Nat → Nat → Bool → Bool → List α
  | 0, arr, _, _, _, _, _ => arr
  | fuel + 1, arr, a, b, limit, wasBalanced, wasPartitioned =>
    let length := b - a
    if length ≤ 12 then insertionSortGo less arr a b
    else if limit = 0 then heapSortGo less arr a b
    else
      let limit2 := if !wasBalanced then limit - 1 else limit
      let arr := if !wasBalanced then breakPatternsGo arr a b else arr
      let (pivot0, hint0) := choosePivotGo less arr a b
      let arr := if hint0 = SortedHint.decreasing then reverseRangeGo arr a b else arr
      let pivot := if hint0 = SortedHint.decreasing then (b - 1) - (pivot0 - a) else pivot0
      let hint := if hint0 = SortedHint.decreasing then SortedHint.increasing else hint0
      let (arr, sortedEarly) :=
        if wasBalanced && wasPartitioned && decide (hint = SortedHint.increasing) then
          partlyInsertionSortGo less arr a b
        else (arr, false)
      if sortedEarly then arr
      else if 0 < a && !(less (lget arr (a - 1)) (lget arr pivot)) then
        let (arr, mid) := partitionEqualGo less arr a b pivot
        pdqsortF fuel arr mid b limit2 wasBalanced wasPartitioned
      else
        let (arr, mid, alreadyPartitioned) := partitionGo less arr a b pivot
        let leftLen := mid - a
        let rightLen := b - mid
        let balanceThreshold := length / 8
        let wasBalanced2 := decide (balanceThreshold ≤ min leftLen rightLen)
        if leftLen < rightLen then
          pdqsortF fuel (pdqsortF fuel arr a mid limit2 true true) (mid + 1) b limit2
            wasBalanced2 alreadyPartitioned
        else
          pdqsortF fuel (pdqsortF fuel arr (mid + 1) b limit2 true true) a mid limit2
            wasBalanced2 alreadyPartitioned

/-- Go `sort.Slice(x, less)`: `pdqsort_func(lessSwap, 0, n, bits.Len(uint(n)))`.
The fuel bounds the chain of loop iterations / nested calls, each of which
strictly shrinks `b - a`, so `n + 16` always suffices. -/
def sortSliceGo (l : List α) : List α :=
  pdqsortF less (l.length + 16) l 0 l.length (goBitsLen l.length) true true

end PdqsortPort

/-- The `options.SortBy` post-processing sort of `FetchService`:
`sort.Slice(results, ...)` with the field comparator. -/
def sortByField (sortBy : String) (results : List (List (String × JVal))) :
    List (List (String × JVal)) :=
  sortSliceGo (sortLess sortBy) results

/-- An item with a numeric sort key `k` and a distinguishing marker `id`
(concrete test data for the sort). -/
def kItem (k : Int) (id : String) : List (String × JVal) :=
  [("k", JVal.num k), ("id", JVal.str id)]

/-- Thirteen items whose `k` keys contain the equal pairs
`(7, "x")/(7, "y")`, `(1, "a")/(1, "b")` and `(2, "a")/(2, "b")`, each pair
in alphabetical marker order. Thirteen elements is the smallest size at
which `pdqsort` leaves the plain-insertion-sort regime. -/
def c4Input : List (List (String × JVal)) :=
  [kItem 7 "x", kItem 9 "", kItem 0 "", kItem 5 "", kItem 1 "a", kItem 2 "a",
   kItem 4 "", kItem 7 "y", kItem 3 "", kItem 6 "", kItem 8 "", kItem 2 "b",
   kItem 1 "b"]

/-- Everything before the field name in the canonical status text of a
remote required-parameter failure (`rpc error: code = ... desc = ` followed
by the SpaceONE error code and the structured fragment opener). -/
def reqParamHead : String :=
  "rpc error: code = InvalidArgument desc = ERROR_REQUIRED_PARAMETER: Required parameter. (key = "

/-- The canonical status text of a remote required-parameter failure. -/
def reqParamMsg (name : String) : String := reqParamHead ++ name ++ ")"

/-- A status text following the required-parameter convention (it contains
the marker and the structured fragment) that also contains an earlier
`key = ` occurrence. -/
def c9BadMsg : String :=
  "key = wrong) ERROR_REQUIRED_PARAMETER Required parameter. (key = user_id)"

/-- A concrete options value for exercising the alias block. -/
def c6Opts : FetchOptions := {
  Parameters := ["name=test"]
  JSONParameter := ""
  FileParameter := ""
  APIVersion := ""
  OutputFormat := "yaml"
  OutputFormatExplicit := false
  CopyToClipboard := false
  SortBy := "created_at"
  MinimalColumns := true
  Columns := "a,b"
  Rows := 5
  Page := 2
  PageSize := 7
  NoPaging := true }

/-! ## Helper lemmas -/

theorem string_mk_toList (s : String) : (⟨s.toList⟩ : String) = s := rfl

theorem toList_append (a b : String) : (a ++ b).toList = a.toList ++ b.toList :=
  String.data_append a b

theorem isPrefixOf_append_self (l t : List Char) : l.isPrefixOf (l ++ t) = true := by
  induction l with
  | nil => simp
  | cons c cs ih => simp [List.isPrefixOf_cons₂, ih]

theorem firstIndexOf_nil_pat (l : List Char) : firstIndexOf? [] l = some 0 := by
  cases l <;> simp [firstIndexOf?]

theorem isPrefixOf_append_ext (l m r : List Char) (h : l.isPrefixOf m = true) :
    l.isPrefixOf (m ++ r) = true := by
  induction l generalizing m with
  | nil => simp
  | cons c cs ih =>
    cases m with
    | nil => simp at h
    | cons d ds =>
      simp only [List.isPrefixOf_cons₂, Bool.and_eq_true] at h
      simp [List.isPrefixOf_cons₂, h.1, ih ds h.2]

theorem isPrefixOf_append_window (pat m r : List Char) (h : pat.length ≤ m.length) :
    pat.isPrefixOf (m ++ r) = pat.isPrefixOf m := by
  induction pat generalizing m with
  | nil => simp
  | cons c cs ih =>
    cases m with
    | nil => simp at h
    | cons d ds =>
      simp only [List.length_cons, Nat.succ_le_succ_iff] at h
      simp [List.isPrefixOf_cons₂, ih ds h]

theorem firstIndexOf_append_pat_isSome (pat pre post : List Char) :
    (firstIndexOf? pat (pre ++ (pat ++ post))).isSome = true := by
  induction pre with
  | nil =>
    rw [List.nil_append]
    cases hpp : pat ++ post with
    | nil =>
      have hpat : pat = [] := by
        cases pat with
        | nil => rfl
        | cons x xs => simp at hpp
      subst hpat
      simp [firstIndexOf?]
    | cons c cs =>
      have hpre : pat.isPrefixOf (c :: cs) = true := by
        rw [← hpp]
        exact isPrefixOf_append_self pat post
      simp [firstIndexOf?, hpre]
  | cons c cs ih =>
    rw [List.cons_append]
    simp only [firstIndexOf?]
    split
    · simp
    · simpa using ih

theorem firstIndexOf_append_stable (pat l r : List Char) (p : Nat)
    (h : firstIndexOf? pat l = some p) (hwin : p + pat.length ≤ l.length) :
    firstIndexOf? pat (l ++ r) = some p := by
  induction l generalizing p with
  | nil =>
    simp only [firstIndexOf?] at h
    by_cases hp : pat = []
    · subst hp
      rw [if_pos rfl] at h
      have hp0 : p = 0 := by
        cases h
        rfl
      subst hp0
      rw [List.nil_append]
      exact firstIndexOf_nil_pat r
    · rw [if_neg hp] at h
      cases h
  | cons c cs ih =>
    rw [List.cons_append]
    simp only [firstIndexOf?] at h ⊢
    by_cases hpre : pat.isPrefixOf (c :: cs) = true
    · rw [if_pos hpre] at h
      have hp0 : p = 0 := by
        cases h
        rfl
      subst hp0
      have hext : pat.isPrefixOf (c :: (cs ++ r)) = true := by
        have := isPrefixOf_append_ext pat (c :: cs) r hpre
        simpa using this
      rw [if_pos hext]
    · rw [if_neg hpre] at h
      obtain ⟨p2, hp2, rfl⟩ : ∃ p2, firstIndexOf? pat cs = some p2 ∧ p = p2 + 1 := by
        cases hf : firstIndexOf? pat cs with
        | none =>
          rw [hf] at h
          simp at h
        | some q =>
          rw [hf] at h
          simp at h
          exact ⟨q, rfl, h.symm⟩
      have hwin2 : p2 + pat.length ≤ cs.length := by
        simp only [List.length_cons] at hwin
        omega
      have hlen : pat.length ≤ (c :: cs).length := by
        simp only [List.length_cons]
        omega
      have hpre2 : pat.isPrefixOf (c :: (cs ++ r)) = false := by
        have hw := isPrefixOf_append_window pat (c :: cs) r hlen
        simp only [List.cons_append] at hw
        rw [hw]
        exact Bool.not_eq_true _ ▸ (Bool.eq_false_iff.mpr hpre)
      rw [Bool.eq_false_iff] at hpre2
      rw [if_neg hpre2, ih p2 hp2 hwin2]
      rfl

theorem goStringsContains_mid (a b c : String) :
    goStringsContains (a ++ b ++ c) b = true := by
  unfold goStringsContains
  rw [toList_append, toList_append, List.append_assoc]
  exact firstIndexOf_append_pat_isSome _ _ _

theorem goStringsContains_right (a b : String) : goStringsContains (a ++ b) b = true := by
  unfold goStringsContains
  rw [toList_append]
  have := firstIndexOf_append_pat_isSome b.toList a.toList []
  simpa using this

/-! ## The claims -/

/-- C1: zero received streaming messages yield `\x7b"results": []\x7d`, exactly
one yields that message unwrapped, and two or more yield
`\x7b"results": [...]\x7d` with the messages comma-joined in receive order. -/
theorem c1_stream_normalization (msgs : List String) :
    (msgs = [] → streamCollectResult msgs = "\x7b\"results\": []\x7d") ∧
    (∀ m, msgs = [m] → streamCollectResult msgs = m) ∧
    (2 ≤ msgs.length →
      streamCollectResult msgs =
        "\x7b\"results\": [" ++ goStringsJoin "," msgs ++ "]\x7d") := by
  refine ⟨?_, ?_, ?_⟩
  · rintro rfl
    rfl
  · rintro m rfl
    rfl
  · intro h
    match msgs, h with
    | m1 :: m2 :: rest, _ => rfl

/-- Witness for C1 at the three concrete shapes. -/
theorem c1_stream_normalization_witness :
    streamCollectResult [] = "\x7b\"results\": []\x7d" ∧
    streamCollectResult ["\x7b\"a\": 1\x7d"] = "\x7b\"a\": 1\x7d" ∧
    streamCollectResult ["A", "B", "C"] =
      "\x7b\"results\": [" ++ goStringsJoin "," ["A", "B", "C"] ++ "]\x7d" :=
  ⟨(c1_stream_normalization []).1 rfl,
   (c1_stream_normalization _).2.1 "\x7b\"a\": 1\x7d" rfl,
   (c1_stream_normalization ["A", "B", "C"]).2.2 (by decide)⟩

/-- C2: on a secure direct address whose host has at least four dot-separated
labels, resolution replaces exactly the first label with the canonical form
of the service name and re-joins the untouched remaining labels (the port
rides in the last label and is preserved with it). -/
theorem c2_first_label_replacement (convert : String → String)
    (serviceName identityEndpoint : String) (parts : List String)
    (hparts : goStringsSplit (goStringsTrimHead identityEndpoint "grpc+ssl://") "." = parts)
    (hlen : 4 ≤ parts.length) :
    ∃ firstLabel rest, parts = firstLabel :: rest ∧
      resolveServiceHost convert serviceName identityEndpoint =
        .ok (goStringsJoin "." (convert serviceName :: rest)) := by
  obtain ⟨firstLabel, rest, rfl⟩ : ∃ a l, parts = a :: l := by
    cases parts with
    | nil => simp at hlen
    | cons a l => exact ⟨a, l, rfl⟩
  refine ⟨firstLabel, rest, rfl, ?_⟩
  simp only [resolveServiceHost]
  rw [hparts]
  rw [if_neg (by simp only [List.length_cons] at hlen ⊢; omega)]

/-- Witness for C2: the spec's scenario
`grpc+ssl://identity.api.dev.example.dev:443` with target service
`monitoring` resolves to `monitoring.api.dev.example.dev:443`. -/
theorem c2_first_label_replacement_witness :
    resolveServiceHost (fun s => s) "monitoring"
      "grpc+ssl://identity.api.dev.example.dev:443" =
      .ok "monitoring.api.dev.example.dev:443" := by
  obtain ⟨p0, rest, hp, hres⟩ :=
    c2_first_label_replacement (fun s => s) "monitoring"
      "grpc+ssl://identity.api.dev.example.dev:443"
      ["identity", "api", "dev", "example", "dev:443"] (by decide) (by decide)
  injection hp with h1 h2
  rw [hres, ← h2]
  rfl

/-- C3: discovery returns the first plugin-namespace match when one exists,
otherwise the first versioned-API-namespace match, otherwise an error whose
text contains both the short service name and the resource name. -/
theorem c3_discovery_policy (services : List String) (serviceName resourceName : String) :
    (∀ s, services.find? (pluginMatch resourceName) = some s →
      discoverService services serviceName resourceName = .ok s) ∧
    (∀ s, s ∈ services → pluginMatch resourceName s = true →
      ∃ t, discoverService services serviceName resourceName = .ok t ∧
        pluginMatch resourceName t = true) ∧
    (services.find? (pluginMatch resourceName) = none →
      ∀ s, services.find? (apiMatch serviceName resourceName) = some s →
        discoverService services serviceName resourceName = .ok s) ∧
    (services.find? (pluginMatch resourceName) = none →
      services.find? (apiMatch serviceName resourceName) = none →
      ∃ e, discoverService services serviceName resourceName = .error e ∧
        goStringsContains e serviceName = true ∧
        goStringsContains e resourceName = true) := by
  refine ⟨?_, ?_, ?_, ?_⟩
  · intro s hs
    unfold discoverService
    rw [hs]
  · intro s hmem hmatch
    have hsome : (services.find? (pluginMatch resourceName)).isSome := by
      rw [List.find?_isSome]
      exact ⟨s, hmem, hmatch⟩
    obtain ⟨t, ht⟩ := Option.isSome_iff_exists.mp hsome
    refine ⟨t, ?_, List.find?_some ht⟩
    unfold discoverService
    rw [ht]
  · intro hplug s hs
    unfold discoverService
    rw [hplug, hs]
  · intro hplug hapi
    refine ⟨"service not found for " ++ serviceName ++ "." ++ resourceName, ?_, ?_, ?_⟩
    · unfold discoverService
      rw [hplug, hapi]
    · have := goStringsContains_mid "service not found for " serviceName ("." ++ resourceName)
      simpa [String.append_assoc] using this
    · exact goStringsContains_right ("service not found for " ++ serviceName ++ ".") resourceName

/-- Witness for C3: the spec's scenario — no match for `(billing, invoice)`
over a service list that matches neither policy, and the plugin-first
priority on a list where both policies match. -/
theorem c3_discovery_policy_witness :
    (∃ e, discoverService ["spaceone.api.identity.v1.User"] "billing" "invoice" =
        .error e ∧ goStringsContains e "billing" = true ∧
        goStringsContains e "invoice" = true) ∧
    discoverService
      ["spaceone.api.inventory.v1.Note", "spaceone.api.inventory.plugin.Note"]
      "inventory" "Note" = .ok "spaceone.api.inventory.plugin.Note" :=
  ⟨(c3_discovery_policy ["spaceone.api.identity.v1.User"] "billing" "invoice").2.2.2
      (by decide) (by decide),
   (c3_discovery_policy
      ["spaceone.api.inventory.v1.Note", "spaceone.api.inventory.plugin.Note"]
      "inventory" "Note").1 "spaceone.api.inventory.plugin.Note" (by decide)⟩

/-- C10: with an empty authentication token the gate at the top of
`FetchService` returns early with a `nil` result and a `nil` error for every
environment, before any connection is made. -/
theorem c10_empty_token_nil_nil (environment token : String) (h : token = "") :
    fetchServiceTokenGate environment token = some (none, none) := by
  subst h
  unfold fetchServiceTokenGate
  rw [if_pos rfl]
  split
  · rfl
  · split
    · rfl
    · split <;> rfl

/-- Witness for C10 at a concrete environment. -/
theorem c10_empty_token_nil_nil_witness :
    fetchServiceTokenGate "dev-user" "" = some (none, none) :=
  c10_empty_token_nil_nil "dev-user" "" rfl

/-! ## Map-merge lemmas -/

theorem jlookup_mupdate_same (m : List (String × JVal)) (k : String) (v : JVal) :
    jlookup (mupdate m k v) k = some v := by
  simp [mupdate, jlookup]

theorem jlookup_filter_ne (m : List (String × JVal)) (k k2 : String) (h : k ≠ k2) :
    jlookup (m.filter (fun p => !(p.1 = k2 : Bool))) k = jlookup m k := by
  induction m with
  | nil => rfl
  | cons p rest ih =>
    obtain ⟨k1, v1⟩ := p
    by_cases h1 : k1 = k2
    · subst h1
      rw [List.filter_cons_of_neg (by simp)]
      rw [ih]
      simp only [jlookup]
      rw [if_neg (fun he => h he.symm)]
    · rw [List.filter_cons_of_pos (by simp [h1])]
      simp only [jlookup]
      by_cases h2 : k1 = k
      · rw [if_pos h2, if_pos h2]
      · rw [if_neg h2, if_neg h2, ih]

theorem jlookup_mupdate_ne (m : List (String × JVal)) (k k2 : String) (v : JVal)
    (h : k2 ≠ k) : jlookup (mupdate m k2 v) k = jlookup m k := by
  simp only [mupdate, jlookup]
  rw [if_neg h]
  exact jlookup_filter_ne m k k2 (Ne.symm h)

theorem overlayMap_nil (base : List (String × JVal)) : overlayMap base [] = base := rfl

theorem overlayMap_cons (base : List (String × JVal)) (p : String × JVal)
    (rest : List (String × JVal)) :
    overlayMap base (p :: rest) = overlayMap (mupdate base p.1 p.2) rest := rfl

theorem jlookup_overlayMap_notin (base overlay : List (String × JVal)) (k : String)
    (h : ∀ p ∈ overlay, p.1 ≠ k) :
    jlookup (overlayMap base overlay) k = jlookup base k := by
  induction overlay generalizing base with
  | nil => rfl
  | cons p rest ih =>
    rw [overlayMap_cons]
    rw [ih (mupdate base p.1 p.2) (fun q hq => h q (List.mem_cons_of_mem _ hq))]
    exact jlookup_mupdate_ne base k p.1 p.2 (h p (List.mem_cons_self _ _))

theorem jlookup_overlayMap_mem (base overlay : List (String × JVal)) (k : String)
    (v : JVal) (hnodup : (overlay.map Prod.fst).Nodup)
    (hin : jlookup overlay k = some v) :
    jlookup (overlayMap base overlay) k = some v := by
  induction overlay generalizing base with
  | nil => simp [jlookup] at hin
  | cons p rest ih =>
    obtain ⟨k1, v1⟩ := p
    simp only [List.map_cons, List.nodup_cons, List.mem_map] at hnodup
    rw [overlayMap_cons]
    by_cases h1 : k1 = k
    · subst h1
      have hv : v1 = v := by simpa [jlookup] using hin
      subst hv
      have hrest : ∀ q ∈ rest, q.1 ≠ k1 := by
        intro q hq he
        exact hnodup.1 ⟨q, hq, he⟩
      rw [jlookup_overlayMap_notin (mupdate base k1 v1) rest k1 hrest]
      exact jlookup_mupdate_same base k1 v1
    · have hin2 : jlookup rest k = some v := by simpa [jlookup, h1] using hin
      exact ih (mupdate base k1 v1) hnodup.2 hin2

theorem applyTokens_preserve (params : List String) (acc : List (String × JVal))
    (k : String)
    (h : ∀ t ∈ params, ∃ k2 v2, splitEq t = some (k2, v2) ∧ k2 ≠ k) :
    ∃ m, applyTokens acc params = .ok m ∧ jlookup m k = jlookup acc k := by
  induction params generalizing acc with
  | nil => exact ⟨acc, rfl, rfl⟩
  | cons t rest ih =>
    obtain ⟨k2, v2, hsp, hne⟩ := h t (List.mem_cons_self _ _)
    obtain ⟨m, hm, hl⟩ :=
      ih (mupdate acc k2 (tokenValue v2)) (fun u hu => h u (List.mem_cons_of_mem _ hu))
    refine ⟨m, ?_, ?_⟩
    · simp only [applyTokens, hsp]
      exact hm
    · rw [hl]
      exact jlookup_mupdate_ne acc k k2 (tokenValue v2) hne

theorem applyTokens_append (ts1 ts2 : List String) (acc : List (String × JVal))
    (h : ∀ t ∈ ts1, (splitEq t).isSome) :
    ∃ acc2, applyTokens acc (ts1 ++ ts2) = applyTokens acc2 ts2 := by
  induction ts1 generalizing acc with
  | nil => exact ⟨acc, rfl⟩
  | cons t rest ih =>
    obtain ⟨⟨k2, v2⟩, hkv⟩ :=
      Option.isSome_iff_exists.mp (h t (List.mem_cons_self _ _))
    obtain ⟨acc2, hacc⟩ :=
      ih (mupdate acc k2 (tokenValue v2)) (fun u hu => h u (List.mem_cons_of_mem _ hu))
    refine ⟨acc2, ?_⟩
    simp only [List.cons_append, applyTokens, hkv]
    exact hacc

/-- C5 counterexample: a key present in both the inline blob and a
`key=value` token ends up with the token's value, not the blob's — the
inline blob is not the highest-precedence source. -/
theorem c5_blob_overridden_by_token :
    parseParameters [] (some [("a", JVal.str "blob")]) ["a=hello"] =
      .ok [("a", JVal.str "hello")] ∧
    jlookup [("a", JVal.str "blob")] "a" = some (JVal.str "blob") ∧
    jlookup [("a", JVal.str "hello")] "a" = some (JVal.str "hello") ∧
    JVal.str "hello" ≠ JVal.str "blob" :=
  ⟨rfl, by decide, by decide, by decide⟩

/-- C5 (amended): the inline blob overrides the file-sourced document for a
shared key whenever no `key=value` token mentions that key; but the tokens
are applied after the blob, so a key also given by a token takes the (last
such) token's value. -/
theorem c5_merge_precedence (fileMap blobMap : List (String × JVal))
    (params : List String) :
    (∀ k v, (blobMap.map Prod.fst).Nodup → jlookup blobMap k = some v →
      (∀ t ∈ params, ∃ k2 v2, splitEq t = some (k2, v2) ∧ k2 ≠ k) →
      ∃ m, parseParameters fileMap (some blobMap) params = .ok m ∧
        jlookup m k = some v) ∧
    (∀ ts1 t ts2 k v, params = ts1 ++ t :: ts2 →
      (∀ u ∈ ts1, (splitEq u).isSome) → splitEq t = some (k, v) →
      (∀ u ∈ ts2, ∃ k2 v2, splitEq u = some (k2, v2) ∧ k2 ≠ k) →
      ∃ m, parseParameters fileMap (some blobMap) params = .ok m ∧
        jlookup m k = some (tokenValue v)) := by
  constructor
  · intro k v hnodup hin htok
    obtain ⟨m, hm, hl⟩ := applyTokens_preserve params (paramBase fileMap (some blobMap)) k htok
    refine ⟨m, hm, ?_⟩
    rw [hl]
    exact jlookup_overlayMap_mem _ blobMap k v hnodup hin
  · intro ts1 t ts2 k v hps hwf1 hsp htok2
    subst hps
    obtain ⟨acc2, hacc⟩ :=
      applyTokens_append ts1 (t :: ts2) (paramBase fileMap (some blobMap)) hwf1
    obtain ⟨m, hm, hl⟩ := applyTokens_preserve ts2 (mupdate acc2 k (tokenValue v)) k htok2
    refine ⟨m, ?_, ?_⟩
    · show applyTokens (paramBase fileMap (some blobMap)) (ts1 ++ t :: ts2) = .ok m
      rw [hacc]
      simp only [applyTokens, hsp]
      exact hm
    · rw [hl]
      exact jlookup_mupdate_same acc2 k (tokenValue v)

/-- Witness for C5 (amended), exercising both conjuncts on concrete data. -/
theorem c5_merge_precedence_witness :
    (∃ m, parseParameters [("a", JVal.num 1)] (some [("b", JVal.str "B")]) ["c=2"] =
        .ok m ∧ jlookup m "b" = some (JVal.str "B")) ∧
    (∃ m, parseParameters [] (some [("b", JVal.str "B")]) ["x=1", "b=9", "c=2"] =
        .ok m ∧ jlookup m "b" = some (tokenValue "9")) := by
  constructor
  · refine (c5_merge_precedence [("a", JVal.num 1)] [("b", JVal.str "B")] ["c=2"]).1
      "b" (JVal.str "B") (by decide) (by decide) ?_
    intro t ht
    have heq : t = "c=2" := by simpa using ht
    subst heq
    exact ⟨"c", "2", by decide, by decide⟩
  · refine (c5_merge_precedence [] [("b", JVal.str "B")] ["x=1", "b=9", "c=2"]).2
      ["x=1"] "b=9" ["c=2"] "b" "9" rfl ?_ (by decide) ?_
    · intro u hu
      have heq : u = "x=1" := by simpa using hu
      subst heq
      decide
    · intro u hu
      have heq : u = "c=2" := by simpa using hu
      subst heq
      exact ⟨"c", "2", by decide, by decide⟩

/-! ## Decimal-printing lemmas -/

theorem isDecDigit_decDigit (d : Nat) : isDecDigit (decDigit d) = true := by
  match d with
  | 0 | 1 | 2 | 3 | 4 | 5 | 6 | 7 | 8 => decide
  | n + 9 => exact (by decide : isDecDigit '9' = true)

theorem decDigitVal_decDigit (d : Nat) (h : d ≤ 9) : decDigitVal (decDigit d) = d := by
  interval_cases d <;> decide

theorem natDigitsRevF_digits (fuel : Nat) :
    ∀ n, n < fuel → ∀ c ∈ natDigitsRevF fuel n, ∃ d, d ≤ 9 ∧ c = decDigit d := by
  induction fuel with
  | zero => omega
  | succ fuel ih =>
    intro n hn c hc
    simp only [natDigitsRevF] at hc
    by_cases h10 : n < 10
    · rw [if_pos h10] at hc
      simp only [List.mem_singleton] at hc
      subst hc
      exact ⟨n, by omega, rfl⟩
    · rw [if_neg h10] at hc
      rcases List.mem_cons.mp hc with hc | hc
      · subst hc
        exact ⟨n % 10, by omega, rfl⟩
      · exact ih (n / 10) (by omega) c hc

theorem natDigitsRevF_ne_nil (fuel n : Nat) (h : 0 < fuel) :
    natDigitsRevF fuel n ≠ [] := by
  cases fuel with
  | zero => omega
  | succ fuel =>
    simp only [natDigitsRevF]
    split <;> simp

theorem natDigitsRevF_foldr (fuel : Nat) :
    ∀ n, n < fuel →
      (natDigitsRevF fuel n).foldr (fun c a => a * 10 + decDigitVal c) 0 = n := by
  induction fuel with
  | zero => omega
  | succ fuel ih =>
    intro n hn
    simp only [natDigitsRevF]
    by_cases h10 : n < 10
    · rw [if_pos h10]
      simp [decDigitVal_decDigit n (by omega)]
    · rw [if_neg h10]
      simp only [List.foldr_cons]
      rw [ih (n / 10) (by omega), decDigitVal_decDigit (n % 10) (by omega)]
      omega

theorem parseNatChars_goItoaNat (n : Nat) : parseNatChars (goItoaNat n).toList = n := by
  show parseNatChars ((natDigitsRevF (n + 1) n).reverse) = n
  unfold parseNatChars
  rw [List.foldl_reverse]
  exact natDigitsRevF_foldr (n + 1) n (by omega)

theorem goItoaNat_toList_digits (n : Nat) :
    ∀ c ∈ (goItoaNat n).toList, ∃ d, d ≤ 9 ∧ c = decDigit d := by
  intro c hc
  have hmem : c ∈ natDigitsRevF (n + 1) n := by
    have : c ∈ (natDigitsRevF (n + 1) n).reverse := hc
    simpa using this
  exact natDigitsRevF_digits (n + 1) n (by omega) c hmem

theorem goItoaNat_isDecDigit (n : Nat) (c : Char) (hc : c ∈ (goItoaNat n).toList) :
    isDecDigit c = true := by
  obtain ⟨d, -, rfl⟩ := goItoaNat_toList_digits n c hc
  exact isDecDigit_decDigit d

theorem goItoaNat_toList_ne_nil (n : Nat) : (goItoaNat n).toList ≠ [] := by
  show (natDigitsRevF (n + 1) n).reverse ≠ []
  simpa using natDigitsRevF_ne_nil (n + 1) n (by omega)

theorem goItoaNat_ne_of_bad_char (n : Nat) (s : String) (c : Char)
    (hc : c ∈ s.toList) (hbad : isDecDigit c = false) : goItoaNat n ≠ s := by
  intro he
  have hcm : c ∈ (goItoaNat n).toList := by
    rw [he]
    exact hc
  rw [goItoaNat_isDecDigit n c hcm] at hbad
  cases hbad

theorem scalarJSONValue_goItoaNat (n : Nat) :
    scalarJSONValue (goItoaNat n) = some (.num n) := by
  unfold scalarJSONValue
  rw [if_neg (goItoaNat_ne_of_bad_char n "true" 't' (by decide) (by decide))]
  rw [if_neg (goItoaNat_ne_of_bad_char n "false" 'f' (by decide) (by decide))]
  rw [if_neg (goItoaNat_ne_of_bad_char n "null" 'n' (by decide) (by decide))]
  rw [if_pos]
  · rw [parseNatChars_goItoaNat]
  · simp only [Bool.and_eq_true, Bool.not_eq_eq_eq_not, Bool.not_true, decide_eq_false_iff_not]
    exact ⟨by simpa using goItoaNat_toList_ne_nil n,
      List.all_eq_true.mpr (fun c hc => goItoaNat_isDecDigit n c hc)⟩

theorem eq_char_notin_goItoaNat (n : Nat) : '=' ∉ (goItoaNat n).toList := by
  intro h
  have := goItoaNat_isDecDigit n '=' h
  exact absurd this (by decide)

theorem splitEqChars_append (kc vc : List Char) (h : '=' ∉ kc) :
    splitEqChars (kc ++ '=' :: vc) = some (kc, vc) := by
  induction kc with
  | nil => simp [splitEqChars]
  | cons c cs ih =>
    have hc : c ≠ '=' := fun he => h (he ▸ List.mem_cons_self c cs)
    simp only [List.cons_append, splitEqChars]
    rw [if_neg hc, List.append_eq, ih (fun hm => h (List.mem_cons_of_mem c hm))]
    rfl

theorem splitEq_key_value (k v : String) (h : '=' ∉ k.toList) :
    splitEq (k ++ "=" ++ v) = some (k, v) := by
  unfold splitEq
  rw [toList_append, toList_append]
  rw [show ("=" : String).toList = ['='] from rfl, List.append_assoc]
  rw [show (['='] ++ v.toList : List Char) = '=' :: v.toList from rfl]
  rw [splitEqChars_append k.toList v.toList h]
  rfl

/-- C8: for a `list` invocation with an explicit page request, `page` and
`page_size` are present in the merged parameter set with the requested
values, overriding any same-named key from the file source, the inline
blob, or earlier `key=value` tokens (the two synthetic tokens are appended
after every other token, so the result holds for every file map, blob and
well-formed token list). The hypothesis `0 ≤ pageSize` reflects that the
numeric model prints unsigned decimals. -/
theorem c8_paging_params_override (fileMap : List (String × JVal))
    (jsonBlob : Option (List (String × JVal))) (params : List String)
    (page pageSize : Int) (hpage : 0 < page) (hps : 0 ≤ pageSize)
    (hwf : ∀ t ∈ params, (splitEq t).isSome) :
    ∃ m, parseParameters fileMap jsonBlob
        (paramsWithPaging "list" page pageSize params) = .ok m ∧
      jlookup m "page" = some (JVal.num page) ∧
      jlookup m "page_size" = some (JVal.num pageSize) := by
  have hveq : goItoa page = goItoaNat page.toNat := by
    unfold goItoa
    rw [if_neg (by omega)]
  have hveq2 : goItoa pageSize = goItoaNat pageSize.toNat := by
    unfold goItoa
    rw [if_neg (by omega)]
  have hexp : paramsWithPaging "list" page pageSize params =
      params ++ ["page=" ++ goItoa page, "page_size=" ++ goItoa pageSize] := by
    unfold paramsWithPaging
    rw [if_pos]
    simp [hpage]
  have hsp1 : splitEq ("page=" ++ goItoa page) = some ("page", goItoaNat page.toNat) := by
    rw [hveq, show ("page=" : String) = "page" ++ "=" from rfl, String.append_assoc]
    exact splitEq_key_value "page" (goItoaNat page.toNat) (by decide)
  have hsp2 : splitEq ("page_size=" ++ goItoa pageSize) =
      some ("page_size", goItoaNat pageSize.toNat) := by
    rw [hveq2, show ("page_size=" : String) = "page_size" ++ "=" from rfl,
      String.append_assoc]
    exact splitEq_key_value "page_size" (goItoaNat pageSize.toNat) (by decide)
  have htv1 : tokenValue (goItoaNat page.toNat) = JVal.num page := by
    unfold tokenValue
    rw [scalarJSONValue_goItoaNat]
    simp [Int.toNat_of_nonneg (le_of_lt hpage)]
  have htv2 : tokenValue (goItoaNat pageSize.toNat) = JVal.num pageSize := by
    unfold tokenValue
    rw [scalarJSONValue_goItoaNat]
    simp [Int.toNat_of_nonneg hps]
  obtain ⟨acc2, hacc⟩ :=
    applyTokens_append params
      ["page=" ++ goItoa page, "page_size=" ++ goItoa pageSize]
      (paramBase fileMap jsonBlob) hwf
  refine ⟨mupdate (mupdate acc2 "page" (JVal.num page)) "page_size" (JVal.num pageSize),
    ?_, ?_, ?_⟩
  · show applyTokens (paramBase fileMap jsonBlob)
      (paramsWithPaging "list" page pageSize params) = _
    rw [hexp, hacc]
    simp only [applyTokens, hsp1, hsp2, htv1, htv2]
  · rw [jlookup_mupdate_ne _ _ _ _ (by decide)]
    exact jlookup_mupdate_same _ _ _
  · exact jlookup_mupdate_same _ _ _

/-- Witness for C8: page 3 of size 15 overrides a `page` from the file map,
a `page_size` from the blob and an earlier `page=7` token. -/
theorem c8_paging_params_override_witness :
    ∃ m, parseParameters [("page", JVal.num 99)] (some [("page_size", JVal.str "X")])
        (paramsWithPaging "list" 3 15 ["page=7"]) = .ok m ∧
      jlookup m "page" = some (JVal.num 3) ∧
      jlookup m "page_size" = some (JVal.num 15) := by
  refine c8_paging_params_override [("page", JVal.num 99)]
    (some [("page_size", JVal.str "X")]) ["page=7"] 3 15 (by decide) (by decide) ?_
  intro t ht
  have heq : t = "page=7" := by simpa using ht
  subst heq
  decide

/-! ## Error-text extraction (C9) -/

theorem firstIndexOf_isSome_append (pat l r : List Char)
    (h : (firstIndexOf? pat l).isSome = true) :
    (firstIndexOf? pat (l ++ r)).isSome = true := by
  induction l with
  | nil =>
    simp only [firstIndexOf?] at h
    by_cases hp : pat = []
    · subst hp
      rw [List.nil_append]
      rw [firstIndexOf_nil_pat r]
      rfl
    · rw [if_neg hp] at h
      cases h
  | cons c cs ih =>
    rw [List.cons_append]
    simp only [firstIndexOf?] at h ⊢
    by_cases hpre : pat.isPrefixOf (c :: cs) = true
    · have hext : pat.isPrefixOf (c :: (cs ++ r)) = true := by
        have := isPrefixOf_append_ext pat (c :: cs) r hpre
        simpa using this
      rw [if_pos hext]
      rfl
    · rw [if_neg hpre] at h
      split
      · rfl
      · have h2 : (firstIndexOf? pat cs).isSome = true := by
          cases hf : firstIndexOf? pat cs with
          | none =>
            rw [hf] at h
            cases h
          | some q => rfl
        have := ih h2
        cases hf : firstIndexOf? pat (cs ++ r) with
        | none =>
          rw [hf] at this
          cases this
        | some q => rfl

theorem goStringsContains_head_ext (hd tl pat : String)
    (h : goStringsContains hd pat = true) :
    goStringsContains (hd ++ tl) pat = true := by
  unfold goStringsContains at h ⊢
  rw [toList_append]
  exact firstIndexOf_isSome_append _ _ _ h

theorem firstIndexOf_close_paren (nm : List Char) (h : ')' ∉ nm) :
    firstIndexOf? [')'] (nm ++ [')']) = some nm.length := by
  induction nm with
  | nil => decide
  | cons c cs ih =>
    have hc : c ≠ ')' := fun he => h (he ▸ List.mem_cons_self c cs)
    simp only [List.cons_append, firstIndexOf?]
    rw [if_neg (by simp [List.isPrefixOf_cons₂, Ne.symm hc])]
    rw [List.append_eq, ih (fun hm => h (List.mem_cons_of_mem c hm))]
    rfl

theorem reqParamMsg_toList (name : String) :
    (reqParamMsg name).toList = reqParamHead.toList ++ (name.toList ++ [')']) := by
  unfold reqParamMsg
  rw [toList_append, toList_append, List.append_assoc]
  rfl

/-- C9 counterexample: this status text contains the required-parameter
marker and the structured fragment `Required parameter. (key = user_id)`,
yet the extracted name is taken from the text's *first* `key = ` occurrence
and the reported missing parameter is `wrong`, not `user_id`. -/
theorem c9_extraction_uses_first_occurrence :
    goStringsContains c9BadMsg "ERROR_REQUIRED_PARAMETER" = true ∧
    goStringsContains c9BadMsg "Required parameter. (key = user_id)" = true ∧
    extractParameterName c9BadMsg = "wrong" ∧
    classifyFetchError c9BadMsg = "missing required parameter: wrong" :=
  ⟨by decide, by decide, by decide, by decide⟩

/-- C9 (amended): the code extracts the text between the status text's
first `key = ` occurrence and the next `)`. For a status text in the
canonical convention shape — the fragment's `key = ` is the first
occurrence — and a nonempty field name containing no `)`, the reported
missing parameter is exactly that field name. -/
theorem c9_required_param_extraction (name : String) (hne : name ≠ "")
    (hnp : ')' ∉ name.toList) :
    extractParameterName (reqParamMsg name) = name ∧
    classifyFetchError (reqParamMsg name) = "missing required parameter: " ++ name := by
  have hkey : firstIndexOf? "key = ".toList (reqParamMsg name).toList = some 88 := by
    rw [reqParamMsg_toList]
    exact firstIndexOf_append_stable _ _ _ 88 (by decide) (by decide)
  have hfrag : goStringsContains (reqParamMsg name) "Required parameter. (key = " = true := by
    unfold reqParamMsg
    rw [String.append_assoc]
    exact goStringsContains_head_ext reqParamHead _ _ (by decide)
  have hmark : goStringsContains (reqParamMsg name) "ERROR_REQUIRED_PARAMETER" = true := by
    unfold reqParamMsg
    rw [String.append_assoc]
    exact goStringsContains_head_ext reqParamHead _ _ (by decide)
  have hdrop : ((reqParamMsg name).toList.drop 94) = name.toList ++ [')'] := by
    rw [reqParamMsg_toList]
    rw [show (94 : Nat) = reqParamHead.toList.length from by decide]
    exact List.drop_left _ _
  have hdrop94 : List.drop (88 + 6) (reqParamMsg name).toList = name.toList ++ [')'] :=
    hdrop
  have hext : extractParameterName (reqParamMsg name) = name := by
    unfold extractParameterName
    rw [if_pos hfrag, hkey]
    simp only [hdrop94, firstIndexOf_close_paren name.toList hnp, List.take_left]
    exact string_mk_toList name
  refine ⟨hext, ?_⟩
  simp only [classifyFetchError]
  rw [if_pos hmark, hext, if_pos hne]

/-- Witness for C9 (amended) at the field name `user_id`. -/
theorem c9_required_param_extraction_witness :
    extractParameterName (reqParamMsg "user_id") = "user_id" ∧
    classifyFetchError (reqParamMsg "user_id") =
      "missing required parameter: " ++ "user_id" :=
  c9_required_param_extraction "user_id" (by decide) (by decide)

/-! ## FetchOptions mutation (C6) -/

/-- C6 counterexample: with an alias resolving to `list user` and a
non-explicit output format, the caller's options value is mutated by the
alias block — its `OutputFormat` field reads `"table"` afterwards though the
caller passed `"yaml"` — so the caller's `FetchOptions` is not left with all
fields unchanged. -/
theorem c6_caller_options_mutated :
    c6Opts.OutputFormat = "yaml" ∧
    ((aliasListAdjust (some "list user") "ls" "" c6Opts).2.2.1).OutputFormat = "table" ∧
    (aliasListAdjust (some "list user") "ls" "" c6Opts).2.2.1 ≠ c6Opts :=
  ⟨rfl, rfl, by decide⟩

/-- C6 (amended): the alias-to-`list` expansion does construct a fresh
options value for the remainder of the invocation, but it first writes
`"table"` into the caller's `OutputFormat` field through the pointer when no
explicit format was given. It changes no other caller field (the caller's
value is either untouched or equal to the original with only `OutputFormat`
replaced), and with an explicit output format the caller's value is
untouched. -/
theorem c6_alias_constructs_new_options (aliasCmd : Option String)
    (verb resourceName : String) (opts : FetchOptions) :
    (opts.OutputFormatExplicit = true →
      (aliasListAdjust aliasCmd verb resourceName opts).2.2.1 = opts) ∧
    ((aliasListAdjust aliasCmd verb resourceName opts).2.2.1 = opts ∨
      (aliasListAdjust aliasCmd verb resourceName opts).2.2.1 =
        { opts with OutputFormat := "table" }) ∧
    (∀ cmd, aliasCmd = some cmd → 2 ≤ (goStringsFields cmd).length →
      (goStringsFields cmd).getD 0 "" = "list" →
      (aliasListAdjust aliasCmd verb resourceName opts).2.2.2 = {
        Parameters := opts.Parameters
        JSONParameter := opts.JSONParameter
        FileParameter := opts.FileParameter
        APIVersion := opts.APIVersion
        OutputFormat := if !opts.OutputFormatExplicit then "table" else opts.OutputFormat
        OutputFormatExplicit := opts.OutputFormatExplicit
        CopyToClipboard := opts.CopyToClipboard
        SortBy := ""
        MinimalColumns := false
        Columns := ""
        Rows := 0
        Page := 0
        PageSize := 15
        NoPaging := false }) := by
  refine ⟨?_, ?_, ?_⟩
  · intro hexp
    cases aliasCmd with
    | none => rfl
    | some cmd =>
      simp only [aliasListAdjust]
      split
      · split
        · simp [hexp]
        · rfl
      · rfl
  · cases aliasCmd with
    | none => exact Or.inl rfl
    | some cmd =>
      simp only [aliasListAdjust]
      split
      · split
        · by_cases hexp : opts.OutputFormatExplicit
          · exact Or.inl (by simp [hexp])
          · exact Or.inr (by simp [hexp])
        · exact Or.inl rfl
      · exact Or.inl rfl
  · intro cmd hcmd hlen hlist
    subst hcmd
    simp only [aliasListAdjust]
    rw [if_pos hlen, if_pos hlist]
    by_cases hexp : opts.OutputFormatExplicit
    · simp [hexp]
    · simp [hexp]

/-- Witness for C6 (amended): with an explicit output format the caller's
value is untouched, and the fresh options value of the alias-to-`list`
expansion is as stated. -/
theorem c6_alias_constructs_new_options_witness :
    (aliasListAdjust (some "list user") "ls" ""
        { c6Opts with OutputFormatExplicit := true }).2.2.1 =
      { c6Opts with OutputFormatExplicit := true } ∧
    (aliasListAdjust (some "list user") "ls" "" c6Opts).2.2.2 = {
      Parameters := c6Opts.Parameters
      JSONParameter := c6Opts.JSONParameter
      FileParameter := c6Opts.FileParameter
      APIVersion := c6Opts.APIVersion
      OutputFormat := if !c6Opts.OutputFormatExplicit then "table" else c6Opts.OutputFormat
      OutputFormatExplicit := c6Opts.OutputFormatExplicit
      CopyToClipboard := c6Opts.CopyToClipboard
      SortBy := ""
      MinimalColumns := false
      Columns := ""
      Rows := 0
      Page := 0
      PageSize := 15
      NoPaging := false } :=
  ⟨(c6_alias_constructs_new_options (some "list user") "ls" ""
      { c6Opts with OutputFormatExplicit := true }).1 rfl,
   (c6_alias_constructs_new_options (some "list user") "ls" "" c6Opts).2.2
      "list user" rfl (by decide) (by decide)⟩

/-! ## Error propagation and process exits (C7) -/

/-- C7 counterexample: when the API-endpoint discovery collaborator fails on
a non-`grpc://` endpoint, `FetchService` does not return the error to the
caller — the phase ends in `os.Exit(1)`. -/
theorem c7_exit_on_discovery_failure :
    resolveHostPortPhase "https://console.example.com" (.error "connection refused")
      (.ok ("", false)) (fun s => s) "identity" = CoreOutcome.procExit 1 := rfl

/-- C7 (amended): within the endpoint-resolution phase, a failure of either
discovery collaborator terminates the process with exit status 1 instead of
returning; when both collaborator calls succeed, every outcome of the phase
is a returned value (a host-port or an error), never a process exit. -/
theorem c7_error_propagation (endpoint : String) (apiRes : Except String String)
    (identityRes : Except String (String × Bool)) (convert : String → String)
    (serviceName : String) :
    (goStringsStartsWith endpoint "grpc://" = false →
      ((∀ e, apiRes = .error e →
        resolveHostPortPhase endpoint apiRes identityRes convert serviceName =
          CoreOutcome.procExit 1) ∧
       (∀ api e2, apiRes = .ok api → identityRes = .error e2 →
        resolveHostPortPhase endpoint apiRes identityRes convert serviceName =
          CoreOutcome.procExit 1))) ∧
    (∀ api idEp hasId, apiRes = .ok api → identityRes = .ok (idEp, hasId) →
      resolveHostPortPhase endpoint apiRes identityRes convert serviceName ≠
        CoreOutcome.procExit 1) := by
  constructor
  · intro hpre
    constructor
    · rintro e rfl
      unfold resolveHostPortPhase
      rw [hpre]
      rfl
    · rintro api e2 rfl rfl
      unfold resolveHostPortPhase
      rw [hpre]
      rfl
  · rintro api idEp hasId rfl rfl
    unfold resolveHostPortPhase
    by_cases hpre : goStringsStartsWith endpoint "grpc://" = true
    · rw [if_pos hpre]
      intro h
      cases h
    · rw [if_neg hpre]
      cases hasId with
      | false =>
        simp only [Bool.not_false, if_pos]
        split
        · intro h
          cases h
        · split
          · intro h
            cases h
          · intro h
            cases h
      | true =>
        simp only [Bool.not_true]
        rw [if_neg (by simp)]
        cases hres : resolveServiceHost convert serviceName idEp with
        | ok hostPort =>
          intro h
          cases h
        | error e =>
          intro h
          cases h

/-- Witness for C7 (amended): both collaborator results present — no exit. -/
theorem c7_error_propagation_witness :
    resolveHostPortPhase "https://x.example.com" (.ok "https://api.x.example.com")
      (.ok ("grpc+ssl://identity.api.x.example.com:443", true)) (fun s => s)
      "inventory" ≠ CoreOutcome.procExit 1 :=
  (c7_error_propagation "https://x.example.com" (.ok "https://api.x.example.com")
    (.ok ("grpc+ssl://identity.api.x.example.com:443", true)) (fun s => s)
    "inventory").2 "https://api.x.example.com"
    "grpc+ssl://identity.api.x.example.com:443" true rfl rfl

/-! ## The post-processing sort (C4) -/

/-- C4 counterexample: `sort.Slice` is not stable. In `c4Input` the items
with equal sort key `7` appear as marker `x` (index 0) before marker `y`
(index 7); after the `SortBy "k"` post-processing sort the `y` item (index
9) precedes the `x` item (index 10) — equal-keyed items did not retain
their relative input order. -/
theorem c4_sort_not_stable :
    lget c4Input 0 = kItem 7 "x" ∧
    lget c4Input 7 = kItem 7 "y" ∧
    jlookup (kItem 7 "x") "k" = jlookup (kItem 7 "y") "k" ∧
    lget (sortByField "k" c4Input) 9 = kItem 7 "y" ∧
    lget (sortByField "k" c4Input) 10 = kItem 7 "x" :=
  ⟨rfl, rfl, rfl, by decide, by decide⟩

/-- C4 (amended): the comparator of the post-processing sort is type-aware
(string lexicographic, numeric, boolean-true-first), never orders an item
missing the sort field before an item that has it (an item missing the
field is `Less` than nothing, an item having it is `Less` than any item
missing it), and never orders two field-missing items; but the sort itself
is Go's unstable `sort.Slice`, so items with equal sort-field values may
not retain their relative input order. -/
theorem c4_sort_comparator (sortBy : String) (iMap jMap : List (String × JVal)) :
    (jlookup iMap sortBy = none → sortLess sortBy iMap jMap = false) ∧
    ((jlookup iMap sortBy).isSome = true → jlookup jMap sortBy = none →
      sortLess sortBy iMap jMap = true) ∧
    (∀ v w, jlookup iMap sortBy = some (JVal.str v) →
      jlookup jMap sortBy = some (JVal.str w) →
      sortLess sortBy iMap jMap = decide (v < w)) ∧
    (∀ v w : Int, jlookup iMap sortBy = some (JVal.num v) →
      jlookup jMap sortBy = some (JVal.num w) →
      sortLess sortBy iMap jMap = decide (v < w)) ∧
    (∀ v w : Bool, jlookup iMap sortBy = some (JVal.boolean v) →
      jlookup jMap sortBy = some (JVal.boolean w) →
      sortLess sortBy iMap jMap = (v && !w)) := by
  refine ⟨?_, ?_, ?_, ?_, ?_⟩
  · intro h1
    unfold sortLess
    rw [h1]
    cases jlookup jMap sortBy <;> rfl
  · intro h1 h2
    obtain ⟨iv, hiv⟩ := Option.isSome_iff_exists.mp h1
    unfold sortLess
    rw [hiv, h2]
  · intro v w h1 h2
    unfold sortLess
    rw [h1, h2]
  · intro v w h1 h2
    unfold sortLess
    rw [h1, h2]
  · intro v w h1 h2
    unfold sortLess
    rw [h1, h2]

/-- Witness for C4 (amended), exercising every comparator case on concrete
items. -/
theorem c4_sort_comparator_witness :
    sortLess "k" [("other", JVal.num 1)] (kItem 3 "a") = false ∧
    sortLess "k" (kItem 3 "a") [("other", JVal.num 1)] = true ∧
    sortLess "s" [("s", JVal.str "apple")] [("s", JVal.str "pear")] =
      decide (("apple" : String) < "pear") ∧
    sortLess "k" (kItem 3 "a") (kItem 7 "b") = decide ((3 : Int) < 7) ∧
    sortLess "b" [("b", JVal.boolean true)] [("b", JVal.boolean false)] =
      (true && !false) :=
  ⟨(c4_sort_comparator "k" [("other", JVal.num 1)] (kItem 3 "a")).1 rfl,
   (c4_sort_comparator "k" (kItem 3 "a") [("other", JVal.num 1)]).2.1 rfl rfl,
   (c4_sort_comparator "s" [("s", JVal.str "apple")] [("s", JVal.str "pear")]).2.2.1
     "apple" "pear" rfl rfl,
   (c4_sort_comparator "k" (kItem 3 "a") (kItem 7 "b")).2.2.2.1 3 7 rfl rfl,
   (c4_sort_comparator "b" [("b", JVal.boolean true)] [("b", JVal.boolean false)]).2.2.2.2
     true false rfl rfl⟩
